import Mathlib

/-!
# LightCPVerifier — verification of the submission-judge core

Shallow embedding of the LightCPVerifier judge orchestrator
(`src/judge_engine.js`, `src/utils.js`, `src/problem_manager.js`) in Lean 4,
together with theorems settling the specification claims about it.

JavaScript-specific behaviour (truthiness of `||`, `undefined` vs `null`,
`parseInt`/`parseFloat`, `Math.round`, template-string number printing) is
modelled explicitly by small helper functions, so that each embedded
definition matches the source line by line.
-/

namespace LightCPVerifier

/-! ## JavaScript primitive semantics -/

/-- JS `a || b` where `a` is a string-or-undefined value: the empty string and
`undefined` are falsy, every other string is truthy. -/
def jsOrS (a : Option String) (b : String) : String :=
  match a with
  | some s => if s = "" then b else s
  | none => b

/-- Value of a decimal digit character (JS code builds numbers from char codes;
for non-digit characters this is unspecified and never used). -/
def digitVal (c : Char) : Nat := c.toNat - 48

/-- The decimal digit character for `n < 10`. -/
def digitChar : Nat → Char
  | 0 => '0' | 1 => '1' | 2 => '2' | 3 => '3' | 4 => '4'
  | 5 => '5' | 6 => '6' | 7 => '7' | 8 => '8' | _ => '9'

/-- Fuel-driven decimal printer (structural recursion so that it reduces in
the kernel); `fuel > n` always suffices since the recursive call divides by
ten. -/
def natToDecAux (fuel n : Nat) : List Char :=
  match fuel with
  | 0 => []
  | fuel + 1 =>
    if n < 10 then [digitChar n]
    else natToDecAux fuel (n / 10) ++ [digitChar (n % 10)]

/-- Decimal digit list of a natural number, most significant first
(the digit sequence `String(n)` produces in JS for a non-negative integer). -/
def natToDec (n : Nat) : List Char :=
  natToDecAux (n + 1) n

/-- JS `String(n)` for an integer-valued number. -/
def jsIntToString (n : Int) : String :=
  if n < 0 then "-" ++ String.mk (natToDec (-n).toNat)
  else String.mk (natToDec n.toNat)

/-- Numeric value of a list of decimal digit characters (base-10 left fold,
exactly how `parseInt` accumulates digits). -/
def digitsVal (l : List Char) : Nat :=
  l.foldl (fun a c => 10 * a + digitVal c) 0

/-- JS `String.prototype.trim`: strip leading and trailing whitespace. -/
def jsTrim (s : String) : String :=
  String.mk (((s.data.dropWhile Char.isWhitespace).reverse.dropWhile
      Char.isWhitespace).reverse)

/-- JS `parseInt(s, 10)`: skip leading whitespace, optional sign, then the
longest prefix of decimal digits; `none` models `NaN` (no digit found).
Trailing garbage is ignored. -/
def jsParseInt10 (s : String) : Option Int :=
  let cs := s.data.dropWhile Char.isWhitespace
  let neg := cs.head? = some '-'
  let cs2 := if cs.head? = some '-' ∨ cs.head? = some '+' then cs.tail else cs
  let ds := cs2.takeWhile Char.isDigit
  if ds = [] then none
  else some ((if neg then -1 else 1) * (digitsVal ds : Int))

/-- JS `Math.round q` for a (finite) number: round half toward `+∞`. -/
def jsRound (q : ℚ) : Int := ⌊q + 1 / 2⌋

/-- Digit decomposition used by `parseFloat` on strings drawn from the
character class `[0-9.]` (the only strings the unit-conversion regexes
capture): the longest prefix of shape `digits [. digits]` yields
`(integer part, fraction digits value, fraction length)`;
`none` models `NaN`. -/
def parseDecParts (cs : List Char) : Option (ℕ × ℕ × ℕ) :=
  let intDs := cs.takeWhile Char.isDigit
  let rest := cs.drop intDs.length
  let fracDs :=
    if rest.head? = some '.' then rest.tail.takeWhile Char.isDigit else []
  if intDs = [] ∧ fracDs = [] then none
  else some (digitsVal intDs, digitsVal fracDs, fracDs.length)

/-- JS `parseFloat` on `[0-9.]` strings, as the exact rational value. -/
def parseFloatDD (cs : List Char) : Option ℚ :=
  (parseDecParts cs).map fun p => (p.1 : ℚ) + (p.2.1 : ℚ) / 10 ^ p.2.2

/-! ## `toNs` / `toBytes` (src/utils.js lines 14–30)

A JS argument is a number (`num`, with `none` modelling `NaN`) or a string.
The regexes `^([\d.]+)\s*(ms|s)?$` and `^([\d.]+)\s*(k|m|g|)$|^([\d.]+)$`
are decomposed directly: none of the unit or whitespace characters belongs
to `[\d.]`, so the greedy groups are the maximal prefixes shown below. -/

inductive JSArg where
  | num (q : Option ℚ)
  | str (s : String)
deriving Repr, DecidableEq

/-- ASCII lower-casing of one character (the unit letters the regexes accept
are all ASCII, so this models `String.prototype.toLowerCase` on them). -/
def charLower (c : Char) : Char :=
  if 'A' ≤ c ∧ c ≤ 'Z' then Char.ofNat (c.toNat + 32) else c

/-- JS `toLowerCase` of a captured unit group, as a character list. -/
def jsLower (l : List Char) : String :=
  String.mk (l.map charLower)

/-- Match `^([\d.]+)\s*(ms|s)?$` case-insensitively against `s`; on success
return group 1 and the lower-cased unit with the `|| 's'` default applied. -/
def splitTimeMatch (s : String) : Option (List Char × String) :=
  let cs := s.data
  let p := cs.takeWhile (fun c => c.isDigit ∨ c = '.')
  let rest := cs.drop p.length
  let u := rest.dropWhile Char.isWhitespace
  let ul := jsLower u
  if p = [] then none
  else if ul = "" then some (p, "s")
  else if ul = "s" ∨ ul = "ms" then some (p, ul)
  else none

/-- Match `^([\d.]+)\s*(k|m|g|)$` (the second regex alternative
`^([\d.]+)$` is subsumed by the empty unit) and return group 1 and the
lower-cased unit (possibly empty, matching `(m?.[2] || '')`). -/
def splitMemMatch (s : String) : Option (List Char × String) :=
  let cs := s.data
  let p := cs.takeWhile (fun c => c.isDigit ∨ c = '.')
  let rest := cs.drop p.length
  let u := rest.dropWhile Char.isWhitespace
  let ul := jsLower u
  if p = [] then none
  else if ul = "" ∨ ul = "k" ∨ ul = "m" ∨ ul = "g" then some (p, ul)
  else none

/-- Function `toNs` (src/utils.js:14–20): numbers pass through; strings are matched
against the time regex, a failed match yields `parseFloat('0') = 0` with
default unit `s`, and the result is `Math.round(v * (ms ? 1e6 : 1e9))`. -/
def toNs : JSArg → Option ℚ
  | .num q => q
  | .str s =>
    match splitTimeMatch s with
    | none => some (jsRound (0 * 1000000000) : Int)
    | some (p, u) =>
      match parseFloatDD p with
      | none => none
      | some v =>
        some ((jsRound (v * (if u = "ms" then 1000000 else 1000000000)) : Int) : ℚ)

/-- Function `toBytes` (src/utils.js:23–30): numbers pass through; strings are matched
against the memory regex, with IEC multipliers `1 << 30`, `1 << 20`,
`1 << 10` for `g`, `m`, `k`. -/
def toBytes : JSArg → Option ℚ
  | .num q => q
  | .str s =>
    match splitMemMatch s with
    | none => some (jsRound (0 * 1) : Int)
    | some (p, u) =>
      match parseFloatDD p with
      | none => none
      | some v =>
        let mul : ℚ :=
          if u = "g" then 1073741824
          else if u = "m" then 1048576
          else if u = "k" then 1024 else 1
        some ((jsRound (v * mul) : Int) : ℚ)

/-! ## Theorems for claim C9 -/

lemma jsRound_eq_of {q : ℚ} {n : Int} (h1 : (n : ℚ) ≤ q + 1 / 2)
    (h2 : q + 1 / 2 < n + 1) : jsRound q = n :=
  Int.floor_eq_iff.mpr ⟨h1, h2⟩

lemma toNs_str_eq {s : String} {p : List Char} {u : String} {a b k : ℕ} {n : Int}
    (hs : splitTimeMatch s = some (p, u))
    (hp : parseDecParts p = some (a, b, k))
    (hr : jsRound (((a : ℚ) + (b : ℚ) / 10 ^ k) *
      (if u = "ms" then 1000000 else 1000000000)) = n) :
    toNs (.str s) = some (n : ℚ) := by
  simp only [toNs, hs, parseFloatDD, hp, Option.map_some']
  rw [hr]

lemma toBytes_str_eq {s : String} {p : List Char} {u : String} {a b k : ℕ} {n : Int}
    (hs : splitMemMatch s = some (p, u))
    (hp : parseDecParts p = some (a, b, k))
    (hr : jsRound (((a : ℚ) + (b : ℚ) / 10 ^ k) *
      (if u = "g" then 1073741824
       else if u = "m" then 1048576
       else if u = "k" then 1024 else 1)) = n) :
    toBytes (.str s) = some (n : ℚ) := by
  simp only [toBytes, hs, parseFloatDD, hp, Option.map_some']
  rw [hr]

/-- Claim C9. The unit-conversion functions satisfy the spec's concrete
equations — `toNs "1.5s" = 1.5·10⁹`, `toNs "250ms" = 2.5·10⁸`,
`toBytes "256m" = 256·2²⁰`, `toBytes "1g" = 2³⁰`, `toBytes "500" = 500` —
and every numeric (non-string) argument is returned unchanged by both. -/
theorem toNs_toBytes_spec :
    toNs (.str "1.5s") = some 1500000000 ∧
    toNs (.str "250ms") = some 250000000 ∧
    toBytes (.str "256m") = some (256 * 2 ^ 20) ∧
    toBytes (.str "1g") = some (2 ^ 30) ∧
    toBytes (.str "500") = some 500 ∧
    (∀ q : Option ℚ, toNs (.num q) = q) ∧
    (∀ q : Option ℚ, toBytes (.num q) = q) := by
  refine ⟨?_, ?_, ?_, ?_, ?_, fun q => rfl, fun q => rfl⟩
  · have h := toNs_str_eq (s := "1.5s") (p := ['1', '.', '5']) (u := "s")
      (a := 1) (b := 5) (k := 1) (n := 1500000000)
      (by decide) (by decide)
      (by rw [if_neg (by decide : ¬("s" : String) = "ms")]
          exact jsRound_eq_of (by norm_num) (by norm_num))
    simpa using h
  · have h := toNs_str_eq (s := "250ms") (p := ['2', '5', '0']) (u := "ms")
      (a := 250) (b := 0) (k := 0) (n := 250000000)
      (by decide) (by decide)
      (by rw [if_pos (by decide : ("ms" : String) = "ms")]
          exact jsRound_eq_of (by norm_num) (by norm_num))
    simpa using h
  · have h := toBytes_str_eq (s := "256m") (p := ['2', '5', '6']) (u := "m")
      (a := 256) (b := 0) (k := 0) (n := 268435456)
      (by decide) (by decide)
      (by rw [if_neg (by decide : ¬("m" : String) = "g"),
              if_pos (by decide : ("m" : String) = "m")]
          exact jsRound_eq_of (by norm_num) (by norm_num))
    simpa using h.trans (by norm_num)
  · have h := toBytes_str_eq (s := "1g") (p := ['1']) (u := "g")
      (a := 1) (b := 0) (k := 0) (n := 1073741824)
      (by decide) (by decide)
      (by rw [if_pos (by decide : ("g" : String) = "g")]
          exact jsRound_eq_of (by norm_num) (by norm_num))
    simpa using h.trans (by norm_num)
  · have h := toBytes_str_eq (s := "500") (p := ['5', '0', '0']) (u := "")
      (a := 500) (b := 0) (k := 0) (n := 500)
      (by decide) (by decide)
      (by rw [if_neg (by decide : ¬("" : String) = "g"),
              if_neg (by decide : ¬("" : String) = "m"),
              if_neg (by decide : ¬("" : String) = "k")]
          exact jsRound_eq_of (by norm_num) (by norm_num))
    simpa using h

/-! ## Decimal printing / parsing round-trip

`nextSubmissionId` persists the counter with JS `String(next)` and reads it
back with `parseInt(..., 10)`; these lemmas show the two are inverse. -/

lemma natToDecAux_irrel :
    ∀ f1 n f2 : Nat, n < f1 → n < f2 → natToDecAux f1 n = natToDecAux f2 n := by
  intro f1
  induction f1 with
  | zero => intro n f2 h1 _; omega
  | succ f1 ih =>
    intro n f2 h1 h2
    cases f2 with
    | zero => omega
    | succ f2 =>
      show (if n < 10 then _ else _) = if n < 10 then _ else _
      split
      · rfl
      · rw [ih (n / 10) f2
          (by have h3 : n / 10 < n := Nat.div_lt_self (by omega) (by omega); omega)
          (by have h3 : n / 10 < n := Nat.div_lt_self (by omega) (by omega); omega)]

lemma natToDec_eq (n : Nat) :
    natToDec n =
      if n < 10 then [digitChar n] else natToDec (n / 10) ++ [digitChar (n % 10)] := by
  show (if n < 10 then _ else _) = _
  split
  · rfl
  · rw [natToDecAux_irrel n (n / 10) (n / 10 + 1)
      (by have h3 : n / 10 < n := Nat.div_lt_self (by omega) (by omega); omega)
      (by omega)]
    rfl

lemma digitVal_digitChar {d : Nat} (h : d < 10) : digitVal (digitChar d) = d := by
  interval_cases d <;> rfl

lemma isDigit_digitChar {d : Nat} (h : d < 10) : (digitChar d).isDigit = true := by
  interval_cases d <;> rfl

lemma natToDec_ne_nil (n : Nat) : natToDec n ≠ [] := by
  rw [natToDec_eq]
  split
  · simp
  · simp

lemma natToDec_all_digits (n : Nat) : ∀ c ∈ natToDec n, c.isDigit = true := by
  induction n using Nat.strong_induction_on with
  | _ n ih =>
    rw [natToDec_eq]
    split
    · intro c hc
      rw [List.mem_singleton] at hc
      subst hc
      exact isDigit_digitChar (by omega)
    · intro c hc
      rcases List.mem_append.mp hc with h | h
      · exact ih (n / 10) (Nat.div_lt_self (by omega) (by omega)) c h
      · rw [List.mem_singleton] at h
        subst h
        exact isDigit_digitChar (Nat.mod_lt _ (by omega))

lemma digitsVal_append_singleton (l : List Char) (c : Char) :
    digitsVal (l ++ [c]) = 10 * digitsVal l + digitVal c := by
  simp [digitsVal, List.foldl_append]

lemma digitsVal_natToDec (n : Nat) : digitsVal (natToDec n) = n := by
  induction n using Nat.strong_induction_on with
  | _ n ih =>
    rw [natToDec_eq]
    split
    · simp [digitsVal, digitVal_digitChar ‹n < 10›]
    · rw [digitsVal_append_singleton,
        ih (n / 10) (Nat.div_lt_self (by omega) (by omega)),
        digitVal_digitChar (Nat.mod_lt _ (by omega))]
      omega

lemma not_ws_of_isDigit {c : Char} (h : c.isDigit = true) :
    c.isWhitespace = false := by
  cases hval : c.isWhitespace
  · rfl
  · exfalso
    have h2 : ((c = ' ' ∨ c = '\t') ∨ c = '\r') ∨ c = '\n' := by
      simpa [Char.isWhitespace] using hval
    rcases h2 with ((h2 | h2) | h2) | h2 <;> subst h2 <;>
      simp [Char.isDigit] at h

lemma ne_char_of_isDigit {c d : Char} (h : c.isDigit = true)
    (hd : d.isDigit = false) : c ≠ d := by
  intro e
  subst e
  rw [h] at hd
  cases hd

lemma dropWhile_eq_self_of_all {p : Char → Bool} :
    ∀ l : List Char, (∀ c ∈ l, p c = false) → l.dropWhile p = l := by
  intro l h
  cases l with
  | nil => rfl
  | cons a t =>
    rw [List.dropWhile_cons, h a (List.mem_cons_self a t)]
    simp

lemma takeWhile_eq_self_of_all {p : Char → Bool} :
    ∀ l : List Char, (∀ c ∈ l, p c = true) → l.takeWhile p = l := by
  intro l h
  induction l with
  | nil => rfl
  | cons a t ih =>
    rw [List.takeWhile_cons]
    simp [h a (List.mem_cons_self a t),
      ih fun c hc => h c (List.mem_cons_of_mem a hc)]

lemma jsTrim_eq_self_of_all (l : List Char)
    (h : ∀ c ∈ l, c.isWhitespace = false) : jsTrim (String.mk l) = String.mk l := by
  unfold jsTrim
  rw [show (String.mk l).data = l from rfl, dropWhile_eq_self_of_all l h,
    dropWhile_eq_self_of_all l.reverse (fun c hc => h c (List.mem_reverse.mp hc)),
    List.reverse_reverse]

lemma jsParseInt10_of_digits (l : List Char) (hne : l ≠ [])
    (hd : ∀ c ∈ l, c.isDigit = true) :
    jsParseInt10 (String.mk l) = some (digitsVal l : Int) := by
  obtain ⟨c, cs, rfl⟩ := List.exists_cons_of_ne_nil hne
  have hcdig : c.isDigit = true := hd c (List.mem_cons_self c cs)
  have hneg : ¬(some c = some '-') := by
    intro hx
    injection hx with hx
    exact ne_char_of_isDigit hcdig (by decide) hx
  have hpos : ¬(some c = some '+') := by
    intro hx
    injection hx with hx
    exact ne_char_of_isDigit hcdig (by decide) hx
  unfold jsParseInt10
  simp only [show (String.mk (c :: cs)).data = c :: cs from rfl]
  rw [dropWhile_eq_self_of_all _ fun d hdm => not_ws_of_isDigit (hd d hdm)]
  simp only [List.head?_cons]
  have hcs2 : (if some c = some '-' ∨ some c = some '+'
      then (c :: cs).tail else c :: cs) = c :: cs :=
    if_neg (by rintro (hx | hx)
               · exact hneg hx
               · exact hpos hx)
  rw [hcs2, takeWhile_eq_self_of_all _ hd]
  have hsign : (if some c = some '-' then (-1 : Int) else 1) = 1 := if_neg hneg
  rw [hsign, if_neg (by simp : ¬(c :: cs = []))]
  simp

lemma jsParseInt10_neg_digits (l : List Char) (hne : l ≠ [])
    (hd : ∀ c ∈ l, c.isDigit = true) :
    jsParseInt10 (String.mk ('-' :: l)) = some (-(digitsVal l : Int)) := by
  unfold jsParseInt10
  simp only [show (String.mk ('-' :: l)).data = '-' :: l from rfl]
  rw [dropWhile_eq_self_of_all ('-' :: l) (by
    intro d hdm
    rcases List.mem_cons.mp hdm with h1 | h1
    · subst h1; rfl
    · exact not_ws_of_isDigit (hd d h1))]
  simp only [List.head?_cons, List.tail_cons, true_or, if_true]
  rw [takeWhile_eq_self_of_all _ hd, if_neg hne]
  simp

lemma jsParseInt10_jsIntToString (n : Int) :
    jsParseInt10 (jsIntToString n) = some n := by
  rcases lt_or_le n 0 with h | h
  · have heq : jsIntToString n = String.mk ('-' :: natToDec (-n).toNat) := by
      unfold jsIntToString
      rw [if_pos h]
      apply String.ext
      rw [String.data_append]
      rfl
    rw [heq, jsParseInt10_neg_digits _ (natToDec_ne_nil _) (natToDec_all_digits _),
      digitsVal_natToDec]
    congr 1
    omega
  · have heq : jsIntToString n = String.mk (natToDec n.toNat) := by
      unfold jsIntToString
      rw [if_neg (by omega)]
    rw [heq, jsParseInt10_of_digits _ (natToDec_ne_nil _) (natToDec_all_digits _),
      digitsVal_natToDec]
    congr 1
    omega

lemma jsIntToString_no_ws (n : Int) :
    ∀ c ∈ (jsIntToString n).data, c.isWhitespace = false := by
  unfold jsIntToString
  split
  · rw [String.data_append]
    intro c hc
    rcases List.mem_append.mp hc with h1 | h1
    · rw [show ("-" : String).data = ['-'] from rfl, List.mem_singleton] at h1
      subst h1
      rfl
    · exact not_ws_of_isDigit (natToDec_all_digits _ c h1)
  · intro c hc
    exact not_ws_of_isDigit (natToDec_all_digits _ c hc)

/-! ## SubmissionManager (src/utils.js lines 125–152)

The counter file state is `Option String` (`none` = file absent or
unreadable, which the `try {} catch {}` maps to `n = 0`). -/

/-- JS `parseInt(...) || 0`: `NaN` (and `0` itself) collapse to `0`. -/
def jsOrZero (o : Option Int) : Int :=
  match o with
  | none => 0
  | some v => v

/-- The `n` computed by `nextSubmissionId` from the counter-file content:
`parseInt(content.trim(), 10) || 0`, and `0` when the read throws. -/
def readCounter (st : Option String) : Int :=
  match st with
  | none => 0
  | some s => jsOrZero (jsParseInt10 (jsTrim s))

/-- Method `SubmissionManager.nextSubmissionId`: read the counter (absent or
unparsable ⇒ 0), increment, persist `String(next)`, return `next`. -/
def nextSubmissionId (st : Option String) : Int × Option String :=
  let n := readCounter st
  (n + 1, some (jsIntToString (n + 1)))

/-- Method `SubmissionManager.resetCounter`: write the literal string `'0'`. -/
def resetCounter (_st : Option String) : Option String :=
  some "0"

/-- The sids returned by `k` back-to-back `nextSubmissionId` calls, each
reading the state the previous call persisted. -/
def allocFrom (st : Option String) : Nat → List Int
  | 0 => []
  | k + 1 =>
    let r := nextSubmissionId st
    r.1 :: allocFrom r.2 k

lemma readCounter_jsIntToString (n : Int) :
    readCounter (some (jsIntToString n)) = n := by
  show jsOrZero (jsParseInt10 (jsTrim (jsIntToString n))) = n
  have htrim : jsTrim (jsIntToString n) = jsIntToString n :=
    jsTrim_eq_self_of_all _ (jsIntToString_no_ws n)
  rw [htrim, jsParseInt10_jsIntToString]
  rfl

lemma allocFrom_jsIntToString (m : Int) :
    ∀ k : Nat, allocFrom (some (jsIntToString m)) k =
      (List.range k).map fun i : Nat => m + 1 + (i : Int) := by
  intro k
  induction k generalizing m with
  | zero => rfl
  | succ k ih =>
    rw [allocFrom]
    simp only [nextSubmissionId, readCounter_jsIntToString]
    rw [ih (m + 1), List.range_succ_eq_map, List.map_cons, List.map_map]
    congr 1
    · push_cast
      ring
    · apply List.map_congr_left
      intro i _
      simp only [Function.comp_apply]
      push_cast
      ring

/-- Claim C6. Sequential `nextSubmissionId` calls increment by exactly one
(`B.sid = A.sid + 1`); immediately after `resetCounter` the next call
returns `1`; the sids allocated by `k` sequential calls after a reset are
exactly the contiguous range `1, …, k`; and an absent or unparsable counter
file is treated as `0`. -/
theorem nextSubmissionId_spec :
    (∀ st : Option String,
      (nextSubmissionId (nextSubmissionId st).2).1 = (nextSubmissionId st).1 + 1) ∧
    (∀ st : Option String, (nextSubmissionId (resetCounter st)).1 = 1) ∧
    (∀ (st : Option String) (k : Nat),
      allocFrom (resetCounter st) k =
        (List.range k).map fun i : Nat => (i : Int) + 1) ∧
    readCounter none = 0 ∧ readCounter (some "abc12") = 0 := by
  have h0 : ("0" : String) = jsIntToString 0 := by
    unfold jsIntToString
    rw [if_neg (by omega), show (0 : Int).toNat = 0 from rfl, natToDec_eq,
      if_pos (by omega)]
    rfl
  refine ⟨?_, ?_, ?_, rfl, ?_⟩
  · intro st
    show (nextSubmissionId (some (jsIntToString (readCounter st + 1)))).1 = _
    simp [nextSubmissionId, readCounter_jsIntToString]
  · intro st
    show (nextSubmissionId (some "0")).1 = 1
    rw [h0]
    simp [nextSubmissionId, readCounter_jsIntToString]
  · intro st k
    show allocFrom (some "0") k = _
    rw [h0, allocFrom_jsIntToString]
    apply List.map_congr_left
    intro i _
    omega
  · decide

/-! ## Judge engine data model (src/judge_engine.js)

The sandbox runs are external RPCs (`goJudge.runOne`); a run's observable
result enters the model as a `SandboxRes`.  Times and memory are the raw
numbers the sandbox reports; `stdout`/`stderr` are `files?.stdout` /
`files?.stderr`, with `none` modelling `undefined`. -/

structure SandboxRes where
  status : String
  exitStatus : Int
  runTime : Int
  memory : Int
  stdout : Option String
  stderr : Option String
deriving Repr, DecidableEq

/-- One element of the worker's `caseResults` array. -/
structure CaseRes where
  ok : Bool
  status : String
  time : Int
  memory : Int
  msg : String
deriving Repr, DecidableEq

/-- The three verdict shapes the engine publishes: `{status:'queued'}`,
`{status:'done', passed, result, cases}`, `{status:'error', error}`. -/
inductive Verdict where
  | queued
  | done (passed : Bool) (result : String) (cases : List CaseRes)
  | error (msg : String)
deriving Repr, DecidableEq

/-- Method `judgeCase` adjudication (src/judge_engine.js:75–138), as a function of
the two sandbox results.  If the player run is not `Accepted` the code
returns before dispatching the checker (the `chkRes` argument is unused in
that branch); otherwise `ok = chk.status === 'Accepted' && chk.exitStatus
=== 0` and the status is `'Accepted'` / `'Wrong Answer'`. -/
def judgeCase (runRes chkRes : SandboxRes) : CaseRes :=
  if runRes.status ≠ "Accepted" then
    { ok := false, status := runRes.status, time := runRes.runTime,
      memory := runRes.memory, msg := jsOrS runRes.stderr "" }
  else
    let ok : Bool := decide (chkRes.status = "Accepted" ∧ chkRes.exitStatus = 0)
    { ok := ok, status := if ok then "Accepted" else "Wrong Answer",
      time := runRes.runTime, memory := runRes.memory,
      msg := jsOrS chkRes.stdout (jsOrS chkRes.stderr "") }

/-- The per-case worker loop (src/judge_engine.js:198–207): push each case
result, break at the first `ok = false`.  The input list holds the results
the sandbox would deliver for each case, in declared order; the output is
`(caseResults, firstBad)`. -/
def judgeLoop : List CaseRes → List CaseRes × Option CaseRes
  | [] => ([], none)
  | r :: rest =>
    if r.ok then
      let p := judgeLoop rest
      (r :: p.1, p.2)
    else ([r], some r)

/-- Verdict composition (src/judge_engine.js:208–211):
`passed = firstBad === null`,
`result = caseResults[caseResults.length-1].status || 'Unknown'` — which
throws a `TypeError` when `caseResults` is empty. -/
def workerCompose (rs : List CaseRes) (firstBad : Option CaseRes) :
    Except String Verdict :=
  match rs.getLast? with
  | none =>
    .error "TypeError: Cannot read properties of undefined (reading 'status')"
  | some lastR =>
    .ok (.done firstBad.isNone
      (if lastR.status = "" then "Unknown" else lastR.status) rs)

/-- What the worker publishes (and persists to `result.json`) for a list of
per-case outcomes: the composed `done` verdict, or the `catch` branch
`{status:'error', error:String(e)}` when composition throws. -/
def workerPublish (outcomes : List CaseRes) : Verdict :=
  match workerCompose (judgeLoop outcomes).1 (judgeLoop outcomes).2 with
  | .ok v => v
  | .error e => .error e

/-! ## Verdict cache (src/judge_engine.js:53–67)

`results` is the in-memory `Map`; `disk sid` is the parsed content of
`sub_dir/result.json` (`none` when absent/unreadable, which `getResult`
turns into `null`). -/

/-- Method `getResult`: an in-memory hit is returned and deleted — unconditionally,
whatever its status; a miss falls back to the on-disk `result.json`. -/
def getResult (sid : Int) (mem : Int → Option Verdict)
    (disk : Int → Option Verdict) :
    Option Verdict × (Int → Option Verdict) :=
  match mem sid with
  | some r => (some r, fun k => if k = sid then none else mem k)
  | none => (disk sid, mem)

/-! ## Intake / spill / worker rehydration (src/judge_engine.js:27–50, 148–162) -/

/-- The value a worker sees when destructuring `job.code`: a string, JS
`null`, or JS `undefined` (property absent). -/
inductive CodeField where
  | undef
  | jnull
  | str (s : String)
deriving Repr, DecidableEq

/-- Intake enqueue (submit, lines 34–42): when the queue length is at or
above `1024 * 512` the job is pushed WITHOUT a `code` property (so a
destructuring worker reads `undefined`) and the source is written to
`sub_dir/source.code`; otherwise the job carries the inline code.  Returns
the job's code field and the disk write performed. -/
def enqueueJob (queueLen : Nat) (code : String) : CodeField × Option String :=
  if 1024 * 512 ≤ queueLen then (.undef, some code)
  else (.str code, none)

/-- Worker source materialization (lines 156–162), which runs BEFORE the
`try`: `if (code === null)` re-reads `sub_dir/source.code`, otherwise
`fs.writeFile(..., code)` — which throws a `TypeError` when `code` is
`undefined`. -/
def materializeSource : CodeField → Option String → Except String String
  | .jnull, some s => .ok s
  | .jnull, none => .error "ENOENT: no such file or directory"
  | .undef, _ =>
    .error "TypeError: The data argument must be of type string or an instance of Buffer"
  | .str s, _ => .ok s

/-- End-to-end processing of one dequeued job: a throw during
materialization happens outside the worker's `try`/`catch`, so no verdict
is ever published (`none`); otherwise the rest of the pipeline — abstracted
as `judge`, a function of the source text only — produces the published
verdict. -/
def processJob (c : CodeField) (disk : Option String)
    (judge : String → Verdict) : Option Verdict :=
  match materializeSource c disk with
  | .error _ => none
  | .ok code => some (judge code)

/-! ## Submit step sequence (src/judge_engine.js:27–50)

`submit` is a sequence of operations separated by `await` points, at which
workers (sharing the single JS event loop) can run and dequeue.  The
observable effects are tracked per prefix of the sequence. -/

inductive SubmitStep where
  | allocSid
  | publishQueued
  | mkBucket
  | mkSub
  | enqueue
  | writeSource
  | writeMeta
deriving Repr, DecidableEq

/-- The operation order of `submit`: allocate sid, publish `Queued`,
create the bucket and submission directories, push the job onto the queue
(then, on the spill path, write `source.code`), and finally write
`meta.json`. -/
def submitSteps (spill : Bool) : List SubmitStep :=
  if spill then
    [.allocSid, .publishQueued, .mkBucket, .mkSub, .enqueue, .writeSource,
      .writeMeta]
  else
    [.allocSid, .publishQueued, .mkBucket, .mkSub, .enqueue, .writeMeta]

structure SubmitObs where
  subDirExists : Bool
  jobEnqueued : Bool
  sourceWritten : Bool
  metaWritten : Bool
deriving Repr, DecidableEq

def applyStep (s : SubmitObs) : SubmitStep → SubmitObs
  | .mkSub => { s with subDirExists := true }
  | .enqueue => { s with jobEnqueued := true }
  | .writeSource => { s with sourceWritten := true }
  | .writeMeta => { s with metaWritten := true }
  | _ => s

/-- Observable state after the first `k` operations of `submit`. -/
def submitStateAt (spill : Bool) (k : Nat) : SubmitObs :=
  ((submitSteps spill).take k).foldl applyStep
    ⟨false, false, false, false⟩

/-! ## Problem loader (`ProblemConfig` in src/utils.js:366–500 /
src/problem_manager.js)

A YAML value that must be a JS array is modelled by `JsArrayVal`
(`notArray` = present but not an array, which `Array.isArray` rejects);
an absent key is `none`.  String-valued limit/prefix keys are
`Option String`, combined with JS `||` (`jsOrS`). -/

inductive JsArrayVal (α : Type) where
  | notArray
  | arr (l : List α)
deriving Repr, DecidableEq

structure CaseCfg where
  input : String
  output : String
  time : Option String
  memory : Option String
deriving Repr, DecidableEq

structure SubtaskCfg where
  n_cases : Option Int
  cases : Option (JsArrayVal CaseCfg)
  time_limit : Option String
  time : Option String
  memory_limit : Option String
  memory : Option String
deriving Repr, DecidableEq

structure ProblemCfg where
  type : Option String
  subtasks : Option (JsArrayVal SubtaskCfg)
  time_limit : Option String
  time : Option String
  memory_limit : Option String
  memory : Option String
  input_prefix : Option String
  output_prefix : Option String
  input_suffix : Option String
  output_suffix : Option String
  checker : Option String
  filename : Option String
  interactor : Option String
deriving Repr, DecidableEq

/-- A configuration with every key absent (all fields default). -/
def emptyCfg : ProblemCfg :=
  ⟨none, none, none, none, none, none, none, none, none, none, none, none,
    none⟩

/-- One element of the flattened case list. -/
structure CaseSpec where
  subtask : Nat
  input : String
  output : String
  time : String
  memory : String
deriving Repr, DecidableEq

/-- Method `loadConfig` (utils.js:375–390): reject when `subtasks` is missing,
falsy, or not an array (`!cfg.subtasks || !Array.isArray(cfg.subtasks)`);
an empty array is truthy and passes. -/
def loadConfig (cfg : ProblemCfg) : Except String (List SubtaskCfg) :=
  match cfg.subtasks with
  | some (.arr l) => .ok l
  | _ => .error "config.yaml must define subtasks"

/-- The cases generated by the `n_cases` branch for one subtask: indices
`curCase + i`, `i ∈ [0, n_cases)`, interpolated into
`${prefix}${index}${suffix}`. -/
def genBlock (ip isuf op osuf sTime sMem : String) (si : Nat) (base n : Int) :
    List CaseSpec :=
  (List.range n.toNat).map fun i : Nat =>
    { subtask := si,
      input := ip ++ jsIntToString (base + (i : Int)) ++ isuf,
      output := op ++ jsIntToString (base + (i : Int)) ++ osuf,
      time := sTime, memory := sMem }

/-- Method `loadSubtasks` loop (utils.js:404–438): iterate subtasks with the
running case counter `curCase` (advanced ONLY by the `n_cases` branch);
a subtask with `n_cases !== undefined` generates templated cases, one with
an array `cases` copies them, anything else throws. -/
def loadSubtasksGo (ip op isuf osuf gTime gMem : String) :
    List SubtaskCfg → Nat → Int → Except String (List CaseSpec)
  | [], _, _ => .ok []
  | st :: rest, si, curCase =>
    let sTime := jsOrS st.time_limit (jsOrS st.time gTime)
    let sMem := jsOrS st.memory_limit (jsOrS st.memory gMem)
    match st.n_cases with
    | some n =>
      (loadSubtasksGo ip op isuf osuf gTime gMem rest (si + 1)
          (curCase + n)).map
        (genBlock ip isuf op osuf sTime sMem si curCase n ++ ·)
    | none =>
      match st.cases with
      | some (.arr cs) =>
        (loadSubtasksGo ip op isuf osuf gTime gMem rest (si + 1)
            curCase).map
          ((cs.map fun c =>
            { subtask := si, input := c.input, output := c.output,
              time := jsOrS c.time sTime,
              memory := jsOrS c.memory sMem }) ++ ·)
      | _ =>
        .error ("Subtask " ++ jsIntToString si ++
          " must define either n_cases or cases")

/-- Method `loadSubtasks` (utils.js:392–441): resolve global defaults
(`time_limit || time || '1s'`, `memory_limit || memory || '256m'`, empty
prefixes, `.in`/`.ans` suffixes) and run the loop with `curCase = 1`. -/
def loadSubtasks (cfg : ProblemCfg) (l : List SubtaskCfg) :
    Except String (List CaseSpec) :=
  loadSubtasksGo (jsOrS cfg.input_prefix "") (jsOrS cfg.output_prefix "")
    (jsOrS cfg.input_suffix ".in") (jsOrS cfg.output_suffix ".ans")
    (jsOrS cfg.time_limit (jsOrS cfg.time "1s"))
    (jsOrS cfg.memory_limit (jsOrS cfg.memory "256m"))
    l 0 1

/-- JS `x || null` on a string-or-undefined value. -/
def jsOrNullS (a : Option String) : Option String :=
  match a with
  | some s => if s = "" then none else some s
  | none => none

structure LoadedProblem where
  cases : List CaseSpec
  checker : String
  interactor : Option String
  filename : Option String
deriving Repr, DecidableEq

/-- Method `loadProblem` (utils.js:468–499): `loadConfig`, then dispatch on
`cfg.type || 'default'` — `default` (classic) and `interactive` load the
subtasks, `leetcode` and unknown types throw. -/
def loadProblem (cfg : ProblemCfg) : Except String LoadedProblem :=
  match loadConfig cfg with
  | .error e => .error e
  | .ok l =>
    let t := jsOrS cfg.type "default"
    if t = "default" then
      (loadSubtasks cfg l).map fun cs =>
        { cases := cs, checker := jsOrS cfg.checker "chk.cc",
          interactor := none, filename := jsOrNullS cfg.filename }
    else if t = "leetcode" then
      .error "LeetCode problems are not supported for now."
    else if t = "interactive" then
      (loadSubtasks cfg l).map fun cs =>
        { cases := cs, checker := jsOrS cfg.checker "chk.cc",
          interactor := some (jsOrS cfg.interactor "interactor.cc"),
          filename := jsOrNullS cfg.filename }
    else .error ("Unknown problem type: " ++ t)

/-! ## Theorems for claims C1 and C3 -/

/-- Claim C1, counterexample. Reading a `Queued` verdict does NOT leave the
in-memory entry in place: `getResult` deletes the map entry on every
in-memory hit, terminal or not — after one read of a `Queued` entry for
sid 1 the map no longer contains sid 1. -/
theorem getResult_queued_consumed :
    (getResult 1 (fun k => if k = 1 then some Verdict.queued else none)
        (fun _ => none)).1 = some Verdict.queued ∧
    ((getResult 1 (fun k => if k = 1 then some Verdict.queued else none)
        (fun _ => none)).2) 1 = none := by
  constructor <;> rfl

/-- Claim C1, amended. `getResult` consumes the in-memory entry on EVERY hit
(`Queued` included): a hit returns the entry, removes exactly that key, and
leaves other keys intact; a miss returns the on-disk `result.json` content
(`none`/`NotFound` when absent) and leaves the map unchanged; consequently a
second read for the same sid always returns the on-disk fallback. -/
theorem getResult_spec (sid : Int) (mem disk : Int → Option Verdict) :
    (∀ r, mem sid = some r →
      (getResult sid mem disk).1 = some r ∧
      (getResult sid mem disk).2 sid = none ∧
      ∀ k, k ≠ sid → (getResult sid mem disk).2 k = mem k) ∧
    (mem sid = none →
      (getResult sid mem disk).1 = disk sid ∧
      (getResult sid mem disk).2 = mem) ∧
    (getResult sid (getResult sid mem disk).2 disk).1 = disk sid := by
  refine ⟨?_, ?_, ?_⟩
  · intro r h
    unfold getResult
    rw [h]
    exact ⟨rfl, by simp, fun k hk => by simp [hk]⟩
  · intro h
    unfold getResult
    rw [h]
    exact ⟨rfl, rfl⟩
  · rcases h : mem sid with _ | r
    · have h2 : (getResult sid mem disk).2 = mem := by
        unfold getResult
        rw [h]
      rw [h2]
      unfold getResult
      rw [h]
    · have h2 : (getResult sid mem disk).2 =
          fun k => if k = sid then none else mem k := by
        unfold getResult
        rw [h]
      rw [h2]
      unfold getResult
      simp

theorem getResult_spec_witness :
    ((fun k : Int => if k = 2 then some (Verdict.error "boom") else none) 2 =
        some (Verdict.error "boom")) ∧
    (getResult 2 (fun k => if k = 2 then some (Verdict.error "boom") else none)
        (fun _ => none)).1 = some (Verdict.error "boom") :=
  ⟨by simp,
    ((getResult_spec 2
        (fun k => if k = 2 then some (Verdict.error "boom") else none)
        (fun _ => none)).1 (Verdict.error "boom") (by simp)).1⟩

/-- Claim C3, counterexample. When the player run is `Accepted` and the
checker rejects, the case status the code returns is the string
`"Wrong Answer"` (with a space) — not the spelling `"WrongAnswer"` the claim
asserts. -/
theorem judgeCase_spelling_counterexample :
    (judgeCase ⟨"Accepted", 0, 5, 1024, some "3", none⟩
        ⟨"Accepted", 1, 2, 512, some "wrong answer expected 4", none⟩).ok
      = false ∧
    (judgeCase ⟨"Accepted", 0, 5, 1024, some "3", none⟩
        ⟨"Accepted", 1, 2, 512, some "wrong answer expected 4", none⟩).status
      = "Wrong Answer" ∧
    "Wrong Answer" ≠ "WrongAnswer" := by
  refine ⟨by decide, by decide, by decide⟩

/-- Claim C3, amended. For an `Accepted` player run: `ok` holds exactly when
the checker run's status is `Accepted` and its exit status is `0`; when
`ok` is false the returned status is the string `"Wrong Answer"`; the
reported time and memory are those of the player run; and `msg` is the
checker's stdout, falling back to its stderr (then `''`) when stdout is
absent or empty. -/
theorem judgeCase_accepted_spec (runRes chkRes : SandboxRes)
    (h : runRes.status = "Accepted") :
    ((judgeCase runRes chkRes).ok = true ↔
      (chkRes.status = "Accepted" ∧ chkRes.exitStatus = 0)) ∧
    ((judgeCase runRes chkRes).ok = false →
      (judgeCase runRes chkRes).status = "Wrong Answer") ∧
    (judgeCase runRes chkRes).time = runRes.runTime ∧
    (judgeCase runRes chkRes).memory = runRes.memory ∧
    (∀ s, chkRes.stdout = some s → s ≠ "" →
      (judgeCase runRes chkRes).msg = s) ∧
    ((chkRes.stdout = none ∨ chkRes.stdout = some "") →
      (judgeCase runRes chkRes).msg = jsOrS chkRes.stderr "") := by
  unfold judgeCase
  rw [if_neg (by simp [h])]
  refine ⟨by simp, ?_, rfl, rfl, ?_, ?_⟩
  · intro hok
    simp only at hok ⊢
    rw [if_neg (by simp_all)]
  · intro s hs hne
    simp [jsOrS, hs, hne]
  · rintro (hs | hs) <;> simp [jsOrS, hs]

theorem judgeCase_accepted_spec_witness :
    (⟨"Accepted", 0, 7, 99, some "3", none⟩ : SandboxRes).status = "Accepted" ∧
    (judgeCase ⟨"Accepted", 0, 7, 99, some "3", none⟩
        ⟨"Accepted", 0, 1, 2, some "ok", none⟩).time = 7 :=
  ⟨rfl,
    (judgeCase_accepted_spec ⟨"Accepted", 0, 7, 99, some "3", none⟩
      ⟨"Accepted", 0, 1, 2, some "ok", none⟩ rfl).2.2.1.trans rfl⟩

/-! ## Theorems for claims C2 and C4 -/

/-- Claim C2, code bug. A submission spilled at intake (queue length at the
threshold) is enqueued with no `code` property, so the worker's
`code === null` rehydration test sees `undefined` and takes the
`fs.writeFile(..., undefined)` branch, which throws outside the worker's
`try`/`catch`: the spilled run publishes NO verdict, while the same
submission enqueued inline publishes `judge code` — had the job carried
`null` instead, the source would have been rehydrated from disk as
intended. -/
theorem spill_rehydration_bug :
    enqueueJob (1024 * 512) "print(1)" = (CodeField.undef, some "print(1)") ∧
    (∀ judge : String → Verdict,
      processJob CodeField.undef (some "print(1)") judge = none) ∧
    (∀ (judge : String → Verdict) (d : Option String),
      processJob (enqueueJob 0 "print(1)").1 d judge = some (judge "print(1)")) ∧
    (∀ judge : String → Verdict,
      processJob CodeField.jnull (some "print(1)") judge =
        some (judge "print(1)")) :=
  ⟨rfl, fun _ => rfl, fun _ _ => rfl, fun _ => rfl⟩

/-- Claim C4, counterexample. After the fifth operation of `submit` — the
`queue.push` — the job is in the queue while `meta.json` has not been
written; the very next operation is an awaited write, during which a worker
can dequeue.  This holds on both the inline and the spilled path. -/
theorem submit_meta_after_enqueue :
    (submitStateAt false 5).jobEnqueued = true ∧
    (submitStateAt false 5).metaWritten = false ∧
    (submitStateAt true 5).jobEnqueued = true ∧
    (submitStateAt true 5).metaWritten = false := by
  decide

/-- Claim C4, amended. What `submit` does guarantee: at every program point
at which the job is already enqueued the submission directory exists (the
spec's visibility rule), and by the time `submit` returns both the job is
enqueued and `meta.json` is written. -/
theorem submit_visibility_spec :
    (∀ (spill : Bool) (k : Nat), k ≤ (submitSteps spill).length →
      (submitStateAt spill k).jobEnqueued = true →
      (submitStateAt spill k).subDirExists = true) ∧
    (∀ spill : Bool,
      (submitStateAt spill (submitSteps spill).length).jobEnqueued = true ∧
      (submitStateAt spill (submitSteps spill).length).metaWritten = true) := by
  constructor
  · decide
  · decide

theorem submit_visibility_spec_witness :
    5 ≤ (submitSteps false).length ∧
    (submitStateAt false 5).subDirExists = true :=
  ⟨by decide, submit_visibility_spec.1 false 5 (by decide) (by decide)⟩

/-! ## Theorems for claims C5 and C10 -/

lemma judgeCase_ok_status (a b : SandboxRes) :
    (judgeCase a b).ok = true → (judgeCase a b).status = "Accepted" := by
  unfold judgeCase
  split
  · intro h
    simp at h
  · intro h
    exact if_pos h

lemma judgeLoop_all_ok :
    ∀ l : List CaseRes, (∀ r ∈ l, r.ok = true) → judgeLoop l = (l, none) := by
  intro l h
  induction l with
  | nil => rfl
  | cons r rest ih =>
    simp only [judgeLoop]
    rw [if_pos (h r (List.mem_cons_self r rest)),
      ih fun x hx => h x (List.mem_cons_of_mem r hx)]

lemma judgeLoop_firstBad :
    ∀ (l : List CaseRes) (i : Nat) (r : CaseRes),
      l.get? i = some r → r.ok = false →
      (∀ (j : Nat) (rj : CaseRes), j < i → l.get? j = some rj → rj.ok = true) →
      judgeLoop l = (l.take (i + 1), some r) := by
  intro l
  induction l with
  | nil =>
    intro i r hi
    simp at hi
  | cons a rest ih =>
    intro i r hi hbad hok
    cases i with
    | zero =>
      rw [List.get?_cons_zero, Option.some.injEq] at hi
      subst hi
      simp only [judgeLoop]
      rw [if_neg (by rw [hbad]; simp)]
      rfl
    | succ i =>
      have ha : a.ok = true := hok 0 a (by omega) List.get?_cons_zero
      simp only [judgeLoop]
      rw [if_pos ha, ih i r (by simpa using hi) hbad
        fun j rj hj hg => hok (j + 1) rj (by omega) (by simpa using hg)]
      rfl

/-- Claim C5. Early termination: when the first `ok = false` outcome is at
index `i`, the emitted `caseResults` are exactly the first `i + 1` planned
outcomes (so their length is `i + 1`), the loop's behaviour is independent
of any outcome beyond index `i` (cases `j > i` are never dispatched), and
the published verdict is `done` with `passed = false` over those `i + 1`
cases.  When no outcome has `ok = false`, all `n` cases are emitted,
`passed = true`, and the verdict's `result` equals the status of the last
emitted case.  (An `ok` case produced by `judgeCase` always carries status
`"Accepted"`, which grounds the last hypothesis.) -/
theorem early_termination_spec (l : List CaseRes) :
    (∀ (i : Nat) (r : CaseRes),
      l.get? i = some r → r.ok = false →
      (∀ (j : Nat) (rj : CaseRes), j < i → l.get? j = some rj → rj.ok = true) →
      (judgeLoop l).1 = l.take (i + 1) ∧
      (judgeLoop l).1.length = i + 1 ∧
      (∀ l' : List CaseRes, l.take (i + 1) = l'.take (i + 1) →
        judgeLoop l' = judgeLoop l) ∧
      workerPublish l =
        .done false (if r.status = "" then "Unknown" else r.status)
          (l.take (i + 1))) ∧
    ((∀ r ∈ l, r.ok = true) →
      (judgeLoop l).1 = l ∧ (judgeLoop l).2 = none ∧
      (∀ hne : l ≠ [], (∀ r ∈ l, r.status = "Accepted") →
        workerPublish l = .done true (l.getLast hne).status l)) ∧
    (∀ a b : SandboxRes,
      (judgeCase a b).ok = true → (judgeCase a b).status = "Accepted") := by
  refine ⟨?_, ?_, judgeCase_ok_status⟩
  · intro i r hi hbad hok
    have hlt : i < l.length := List.get?_eq_some.mp hi |>.1
    have hloop := judgeLoop_firstBad l i r hi hbad hok
    refine ⟨by rw [hloop], ?_, ?_, ?_⟩
    · rw [hloop]
      simp [List.length_take]
      omega
    · intro l' htake
      have hi' : l'.get? i = some r := by
        have h1 : (l.take (i + 1)).get? i = some r := by
          rw [List.get?_take (by omega)]
          exact hi
        rw [htake, List.get?_take (by omega)] at h1
        exact h1
      have hok' : ∀ (j : Nat) (rj : CaseRes), j < i →
          l'.get? j = some rj → rj.ok = true := by
        intro j rj hj hg
        refine hok j rj hj ?_
        have h1 : (l'.take (i + 1)).get? j = some rj := by
          rw [List.get?_take (by omega)]
          exact hg
        rw [← htake, List.get?_take (by omega)] at h1
        exact h1
      rw [judgeLoop_firstBad l' i r hi' hbad hok', hloop, htake]
    · have hi2 : l[i]? = some r := by
        rw [← List.get?_eq_getElem?]
        exact hi
      have hlast : (l.take (i + 1)).getLast? = some r := by
        rw [List.take_succ, hi2]
        exact List.getLast?_concat _
      unfold workerPublish
      rw [hloop]
      unfold workerCompose
      simp only [hlast]
      rfl
  · intro hall
    have hloop := judgeLoop_all_ok l hall
    refine ⟨by rw [hloop], by rw [hloop], ?_⟩
    intro hne hstat
    have hlast : l.getLast? = some (l.getLast hne) := List.getLast?_eq_getLast l hne
    have hmem : l.getLast hne ∈ l := List.getLast_mem hne
    have hacc : (l.getLast hne).status = "Accepted" := hstat _ hmem
    unfold workerPublish
    rw [hloop]
    unfold workerCompose
    simp only [hlast]
    rw [if_neg (by rw [hacc]; simp)]
    rfl

theorem early_termination_spec_witness :
    ([⟨true, "Accepted", 1, 2, ""⟩, ⟨false, "Time Limit Exceeded", 3, 4, ""⟩,
        ⟨true, "Accepted", 5, 6, ""⟩] : List CaseRes).get? 1 =
      some ⟨false, "Time Limit Exceeded", 3, 4, ""⟩ ∧
    (judgeLoop [⟨true, "Accepted", 1, 2, ""⟩,
        ⟨false, "Time Limit Exceeded", 3, 4, ""⟩,
        ⟨true, "Accepted", 5, 6, ""⟩]).1.length = 1 + 1 := by
  refine ⟨by decide, ?_⟩
  refine ((early_termination_spec _).1 1 ⟨false, "Time Limit Exceeded", 3, 4, ""⟩
    (by decide) (by decide) ?_).2.1
  intro j rj hj hg
  have hj0 : j = 0 := by omega
  subst hj0
  simp only [List.get?_cons_zero, Option.some.injEq] at hg
  rw [← hg]

/-- The configuration `{subtasks: [{n_cases: 0}]}`: loading succeeds and the
flattened case list is empty. -/
def cfgZeroCases : ProblemCfg :=
  { emptyCfg with
    subtasks := some (.arr [⟨some 0, none, none, none, none, none⟩]) }

/-- Claim C10. A problem whose loading succeeds with an empty case list (every
subtask declares `n_cases: 0`) drives the worker into
`caseResults[caseResults.length - 1].status` on an empty array; the thrown
`TypeError` is caught and the published/persisted verdict is an `error`
verdict, and no `done` verdict ever carries an empty `cases` list. -/
theorem empty_cases_error_spec :
    loadProblem cfgZeroCases = .ok ⟨[], "chk.cc", none, none⟩ ∧
    workerPublish [] =
      .error "TypeError: Cannot read properties of undefined (reading 'status')" ∧
    (∀ (outcomes : List CaseRes) (p : Bool) (res : String)
        (cs : List CaseRes),
      workerPublish outcomes = .done p res cs → cs ≠ []) := by
  refine ⟨rfl, rfl, ?_⟩
  intro outcomes p res cs h
  unfold workerPublish workerCompose at h
  rcases hlast : (judgeLoop outcomes).1.getLast? with _ | lastR
  · rw [hlast] at h
    simp at h
  · rw [hlast] at h
    simp only [] at h
    injection h with hp hres hcs
    intro hnil
    rw [hcs, hnil] at hlast
    simp at hlast

theorem empty_cases_error_spec_witness :
    workerPublish [⟨true, "Accepted", 1, 2, "m"⟩] =
      .done true "Accepted" [⟨true, "Accepted", 1, 2, "m"⟩] ∧
    ([⟨true, "Accepted", 1, 2, "m"⟩] : List CaseRes) ≠ [] :=
  ⟨rfl, empty_cases_error_spec.2.2 [⟨true, "Accepted", 1, 2, "m"⟩] true
    "Accepted" _ rfl⟩

/-! ## Theorems for claim C7 -/

/-- A subtask passes validation iff it has an `n_cases` key (any value,
including `0`) or an array-valued `cases` key. -/
def subtaskDefinesCases (st : SubtaskCfg) : Prop :=
  st.n_cases ≠ none ∨ ∃ cs, st.cases = some (.arr cs)

lemma loadSubtasksGo_ok_iff (ip op isuf osuf gT gM : String) :
    ∀ (l : List SubtaskCfg) (si : Nat) (cur : Int),
      (∃ cs, loadSubtasksGo ip op isuf osuf gT gM l si cur = .ok cs) ↔
        ∀ st ∈ l, subtaskDefinesCases st := by
  intro l
  induction l with
  | nil =>
    intro si cur
    simp [loadSubtasksGo]
  | cons st rest ih =>
    intro si cur
    rcases hn : st.n_cases with _ | n
    · rcases hc : st.cases with _ | (_ | cs0)
      · simp only [loadSubtasksGo, hn, hc]
        constructor
        · rintro ⟨cs, hcs⟩
          simp at hcs
        · intro hall
          exact absurd (hall st (List.mem_cons_self st rest))
            (by simp [subtaskDefinesCases, hn, hc])
      · simp only [loadSubtasksGo, hn, hc]
        constructor
        · rintro ⟨cs, hcs⟩
          simp at hcs
        · intro hall
          refine absurd (hall st (List.mem_cons_self st rest)) ?_
          simp only [subtaskDefinesCases, hn, hc]
          rintro (h1 | ⟨cs1, h1⟩)
          · exact h1 rfl
          · simp at h1
      · have hL : (∃ cs,
            loadSubtasksGo ip op isuf osuf gT gM (st :: rest) si cur = .ok cs) ↔
            ∃ cs', loadSubtasksGo ip op isuf osuf gT gM rest (si + 1) cur =
              .ok cs' := by
          simp only [loadSubtasksGo, hn, hc]
          cases hgo : loadSubtasksGo ip op isuf osuf gT gM rest (si + 1) cur <;>
            simp [Except.map]
        rw [hL, ih (si + 1) cur]
        simp [List.forall_mem_cons, subtaskDefinesCases, hn, hc]
    · have hL : (∃ cs,
          loadSubtasksGo ip op isuf osuf gT gM (st :: rest) si cur = .ok cs) ↔
          ∃ cs', loadSubtasksGo ip op isuf osuf gT gM rest (si + 1) (cur + n) =
            .ok cs' := by
        simp only [loadSubtasksGo, hn]
        cases hgo : loadSubtasksGo ip op isuf osuf gT gM rest (si + 1)
            (cur + n) <;>
          simp [Except.map]
      rw [hL, ih (si + 1) (cur + n)]
      simp [List.forall_mem_cons, subtaskDefinesCases, hn]

/-- A configuration whose `subtasks` key is the empty list. -/
def cfgEmptySubtasks : ProblemCfg :=
  { emptyCfg with subtasks := some (.arr []) }

/-- Claim C7, counterexample. A configuration with `subtasks: []` is NOT
rejected: the empty array is truthy and `Array.isArray` accepts it, so
`loadProblem` succeeds — with an empty case list — where the claim demands
a failure. -/
theorem loadProblem_accepts_empty_subtasks :
    loadProblem cfgEmptySubtasks = .ok ⟨[], "chk.cc", none, none⟩ := rfl

/-- Claim C7, amended. `loadProblem` succeeds exactly when `subtasks` is
present and an array — possibly empty — every subtask has `n_cases` or an
array `cases`, and the type (default `"default"`) is `"default"` or
`"interactive"`; every other type value (including `"leetcode"`) and a
missing / non-array `subtasks` fail. -/
theorem loadProblem_ok_iff (cfg : ProblemCfg) :
    (∃ p, loadProblem cfg = .ok p) ↔
      ((∃ l, cfg.subtasks = some (.arr l) ∧
          ∀ st ∈ l, subtaskDefinesCases st) ∧
        (jsOrS cfg.type "default" = "default" ∨
          jsOrS cfg.type "default" = "interactive")) := by
  rcases hs : cfg.subtasks with _ | sv
  · simp only [loadProblem, loadConfig, hs]
    simp
  · rcases sv with _ | l
    · simp only [loadProblem, loadConfig, hs]
      simp
    · simp only [loadProblem, loadConfig, hs]
      by_cases h1 : jsOrS cfg.type "default" = "default"
      · rw [if_pos h1]
        have hL : (∃ p, (loadSubtasks cfg l).map
            (fun cs => ({ cases := cs, checker := jsOrS cfg.checker "chk.cc",
                          interactor := none,
                          filename := jsOrNullS cfg.filename } :
              LoadedProblem)) = .ok p) ↔
            ∃ cs, loadSubtasks cfg l = .ok cs := by
          cases hgo : loadSubtasks cfg l <;> simp [Except.map]
        rw [hL]
        unfold loadSubtasks
        rw [loadSubtasksGo_ok_iff]
        simp [h1]
      · rw [if_neg h1]
        by_cases h2 : jsOrS cfg.type "default" = "leetcode"
        · rw [if_pos h2]
          constructor
          · rintro ⟨p, hp⟩
            simp at hp
          · rintro ⟨_, h3 | h3⟩
            · exact absurd h3 h1
            · rw [h2] at h3
              simp at h3
        · rw [if_neg h2]
          by_cases h3 : jsOrS cfg.type "default" = "interactive"
          · rw [if_pos h3]
            have hL : (∃ p, (loadSubtasks cfg l).map
                (fun cs => ({ cases := cs,
                              checker := jsOrS cfg.checker "chk.cc",
                              interactor :=
                                some (jsOrS cfg.interactor "interactor.cc"),
                              filename := jsOrNullS cfg.filename } :
                  LoadedProblem)) = .ok p) ↔
                ∃ cs, loadSubtasks cfg l = .ok cs := by
              cases hgo : loadSubtasks cfg l <;> simp [Except.map]
            rw [hL]
            unfold loadSubtasks
            rw [loadSubtasksGo_ok_iff]
            simp [h3]
          · rw [if_neg h3]
            constructor
            · rintro ⟨p, hp⟩
              simp at hp
            · rintro ⟨_, h4 | h4⟩
              · exact absurd h4 h1
              · exact absurd h4 h3

/-! ## Theorems for claim C8 -/

/-- How much one subtask advances the running case counter: its `n_cases`
value, and `0` for an explicit-`cases` subtask (the code only does
`curCase += st.n_cases` in the `n_cases` branch). -/
def nCasesAdvance (st : SubtaskCfg) : Int :=
  match st.n_cases with
  | some n => n
  | none => 0

lemma mem_genBlock_subtask {ip isuf op osuf t m : String} {si : Nat}
    {base n : Int} {c : CaseSpec}
    (h : c ∈ genBlock ip isuf op osuf t m si base n) : c.subtask = si := by
  obtain ⟨i, _, rfl⟩ := List.mem_map.mp h
  rfl

lemma go_subtask_lb (ip op isuf osuf gT gM : String) :
    ∀ (l : List SubtaskCfg) (si : Nat) (cur : Int) (cs : List CaseSpec),
      loadSubtasksGo ip op isuf osuf gT gM l si cur = .ok cs →
      ∀ c ∈ cs, si ≤ c.subtask := by
  intro l
  induction l with
  | nil =>
    intro si cur cs h c hc
    simp only [loadSubtasksGo] at h
    injection h with h
    subst h
    simp at hc
  | cons st rest ih =>
    intro si cur cs h c hc
    rcases hn : st.n_cases with _ | n
    · rcases hcs : st.cases with _ | (_ | cs0)
      · simp only [loadSubtasksGo, hn, hcs] at h
        exact Except.noConfusion h
      · simp only [loadSubtasksGo, hn, hcs] at h
        exact Except.noConfusion h
      · simp only [loadSubtasksGo, hn, hcs] at h
        rcases hgo : loadSubtasksGo ip op isuf osuf gT gM rest (si + 1) cur
          with e | cs'
        · rw [hgo] at h
          simp [Except.map] at h
        · rw [hgo] at h
          simp only [Except.map, Except.ok.injEq] at h
          rw [← h] at hc
          rcases List.mem_append.mp hc with hm | hm
          · obtain ⟨c0, _, rfl⟩ := List.mem_map.mp hm
            exact le_refl si
          · have := ih (si + 1) cur cs' hgo c hm
            omega
    · simp only [loadSubtasksGo, hn] at h
      rcases hgo : loadSubtasksGo ip op isuf osuf gT gM rest (si + 1) (cur + n)
        with e | cs'
      · rw [hgo] at h
        simp [Except.map] at h
      · rw [hgo] at h
        simp only [Except.map, Except.ok.injEq] at h
        rw [← h] at hc
        rcases List.mem_append.mp hc with hm | hm
        · rw [mem_genBlock_subtask hm]
        · have := ih (si + 1) (cur + n) cs' hgo c hm
          omega

lemma filter_subtask_genBlock (ip isuf op osuf t m : String) (si : Nat)
    (base n : Int) :
    (genBlock ip isuf op osuf t m si base n).filter
      (fun c => c.subtask == si) = genBlock ip isuf op osuf t m si base n :=
  List.filter_eq_self.mpr fun c hc => by
    rw [mem_genBlock_subtask hc]
    simp

lemma filter_subtask_genBlock_ne (ip isuf op osuf t m : String) (si sj : Nat)
    (base n : Int) (hne : si ≠ sj) :
    (genBlock ip isuf op osuf t m si base n).filter
      (fun c => c.subtask == sj) = [] :=
  List.filter_eq_nil.mpr fun c hc => by
    rw [mem_genBlock_subtask hc]
    simp [hne]

lemma go_filter (ip op isuf osuf gT gM : String) :
    ∀ (l : List SubtaskCfg) (si : Nat) (cur : Int) (cs : List CaseSpec),
      loadSubtasksGo ip op isuf osuf gT gM l si cur = .ok cs →
      ∀ (j : Nat) (st : SubtaskCfg) (n : Int),
        l.get? j = some st → st.n_cases = some n →
        cs.filter (fun c => c.subtask == si + j) =
          genBlock ip isuf op osuf
            (jsOrS st.time_limit (jsOrS st.time gT))
            (jsOrS st.memory_limit (jsOrS st.memory gM))
            (si + j) (cur + ((l.take j).map nCasesAdvance).sum) n := by
  intro l
  induction l with
  | nil =>
    intro si cur cs h j st n hj
    simp at hj
  | cons st0 rest ih =>
    intro si cur cs h j st n hj hn
    cases j with
    | zero =>
      rw [List.get?_cons_zero, Option.some.injEq] at hj
      subst hj
      simp only [loadSubtasksGo, hn] at h
      rcases hgo : loadSubtasksGo ip op isuf osuf gT gM rest (si + 1) (cur + n)
        with e | cs'
      · rw [hgo] at h
        simp [Except.map] at h
      · rw [hgo] at h
        simp only [Except.map, Except.ok.injEq] at h
        rw [← h, List.filter_append, Nat.add_zero, filter_subtask_genBlock,
          List.filter_eq_nil.mpr fun c hc => by
            have := go_subtask_lb ip op isuf osuf gT gM rest (si + 1) (cur + n)
              cs' hgo c hc
            simp
            omega]
        simp
    | succ j =>
      have hj' : rest.get? j = some st := by simpa using hj
      rcases hn0 : st0.n_cases with _ | n0
      · rcases hcs0 : st0.cases with _ | (_ | cs0)
        · simp only [loadSubtasksGo, hn0, hcs0] at h
          exact Except.noConfusion h
        · simp only [loadSubtasksGo, hn0, hcs0] at h
          exact Except.noConfusion h
        · simp only [loadSubtasksGo, hn0, hcs0] at h
          rcases hgo : loadSubtasksGo ip op isuf osuf gT gM rest (si + 1) cur
            with e | cs'
          · rw [hgo] at h
            simp [Except.map] at h
          · rw [hgo] at h
            simp only [Except.map, Except.ok.injEq] at h
            have e1 : si + (j + 1) = si + 1 + j := by omega
            have e2 : cur + (((st0 :: rest).take (j + 1)).map
                nCasesAdvance).sum =
                cur + ((rest.take j).map nCasesAdvance).sum := by
              rw [List.take_succ_cons, List.map_cons, List.sum_cons,
                show nCasesAdvance st0 = 0 from by simp [nCasesAdvance, hn0]]
              ring
            rw [← h, e1, e2, List.filter_append,
              List.filter_eq_nil.mpr fun c hc => by
                obtain ⟨c0, _, rfl⟩ := List.mem_map.mp hc
                simp only [beq_iff_eq]
                omega,
              List.nil_append]
            exact ih (si + 1) cur cs' hgo j st n hj' hn
      · simp only [loadSubtasksGo, hn0] at h
        rcases hgo : loadSubtasksGo ip op isuf osuf gT gM rest (si + 1)
            (cur + n0) with e | cs'
        · rw [hgo] at h
          simp [Except.map] at h
        · rw [hgo] at h
          simp only [Except.map, Except.ok.injEq] at h
          have e1 : si + (j + 1) = si + 1 + j := by omega
          have e2 : cur + (((st0 :: rest).take (j + 1)).map
              nCasesAdvance).sum =
              cur + n0 + ((rest.take j).map nCasesAdvance).sum := by
            rw [List.take_succ_cons, List.map_cons, List.sum_cons,
              show nCasesAdvance st0 = n0 from by simp [nCasesAdvance, hn0]]
            ring
          rw [← h, e1, e2, List.filter_append,
            filter_subtask_genBlock_ne _ _ _ _ _ _ si (si + 1 + j) cur n0 (by omega),
            List.nil_append]
          exact ih (si + 1) (cur + n0) cs' hgo j st n hj' hn

/-- Claim C8. `n_cases` templating numbers cases with a single global index
starting at `1` that advances across subtasks: in the flattened list, the
cases of the subtask at position `j` (with `n_cases = n`) are exactly, for
`k ∈ [0, n)`, the records with input filename
`input_prefix ++ String(c + k) ++ input_suffix` and output filename
`output_prefix ++ String(c + k) ++ output_suffix`, where
`c = 1 + Σ_{t < j} n_cases(t)` is the global index of the subtask's first
case; prefixes default to `""` and suffixes to `".in"` / `".ans"`. -/
theorem ncases_global_numbering (cfg : ProblemCfg) (l : List SubtaskCfg)
    (cs : List CaseSpec) (j : Nat) (st : SubtaskCfg) (n : Int)
    (hload : loadSubtasks cfg l = .ok cs)
    (hj : l.get? j = some st) (hn : st.n_cases = some n) :
    cs.filter (fun c => c.subtask == j) =
      (List.range n.toNat).map fun k =>
        { subtask := j,
          input := jsOrS cfg.input_prefix "" ++
            jsIntToString (1 + ((l.take j).map nCasesAdvance).sum + k) ++
            jsOrS cfg.input_suffix ".in",
          output := jsOrS cfg.output_prefix "" ++
            jsIntToString (1 + ((l.take j).map nCasesAdvance).sum + k) ++
            jsOrS cfg.output_suffix ".ans",
          time := jsOrS st.time_limit
            (jsOrS st.time (jsOrS cfg.time_limit (jsOrS cfg.time "1s"))),
          memory := jsOrS st.memory_limit
            (jsOrS st.memory
              (jsOrS cfg.memory_limit (jsOrS cfg.memory "256m"))) } := by
  have h := go_filter (jsOrS cfg.input_prefix "") (jsOrS cfg.output_prefix "")
    (jsOrS cfg.input_suffix ".in") (jsOrS cfg.output_suffix ".ans")
    (jsOrS cfg.time_limit (jsOrS cfg.time "1s"))
    (jsOrS cfg.memory_limit (jsOrS cfg.memory "256m"))
    l 0 1 cs hload j st n hj hn
  rw [Nat.zero_add] at h
  rw [h]
  rfl

theorem ncases_global_numbering_witness :
    (List.filter (fun c => c.subtask == 1)
      ([⟨0, "1.in", "1.ans", "1s", "256m"⟩, ⟨0, "2.in", "2.ans", "1s", "256m"⟩,
        ⟨1, "3.in", "3.ans", "1s", "256m"⟩, ⟨1, "4.in", "4.ans", "1s", "256m"⟩,
        ⟨1, "5.in", "5.ans", "1s", "256m"⟩] : List CaseSpec)) =
      [⟨1, "3.in", "3.ans", "1s", "256m"⟩, ⟨1, "4.in", "4.ans", "1s", "256m"⟩,
        ⟨1, "5.in", "5.ans", "1s", "256m"⟩] :=
  (ncases_global_numbering
    { emptyCfg with
      subtasks := some (.arr [⟨some 2, none, none, none, none, none⟩,
        ⟨some 3, none, none, none, none, none⟩]) }
    [⟨some 2, none, none, none, none, none⟩,
      ⟨some 3, none, none, none, none, none⟩]
    [⟨0, "1.in", "1.ans", "1s", "256m"⟩, ⟨0, "2.in", "2.ans", "1s", "256m"⟩,
      ⟨1, "3.in", "3.ans", "1s", "256m"⟩, ⟨1, "4.in", "4.ans", "1s", "256m"⟩,
      ⟨1, "5.in", "5.ans", "1s", "256m"⟩]
    1 ⟨some 3, none, none, none, none, none⟩ 3 rfl rfl rfl).trans (by decide)

end LightCPVerifier
